import Mathlib

/- Verification model of the sqlextraction log-replay tool (src/main.go).

   The program has three parts:
   1. ExtractQuery: reads a JSON capture file into a slice of LogEntry
      pointers and rewrites each message to the match of the regular
      expression (?i)\b(SELECT|INSERT|UPDATE|DELETE|WITH RECURSIVE)\b[\s\S]*
      (Go regexp FindString, leftmost match, empty string when no match).
   2. Connection: opens a pooled database handle and sets the pool
      parameters (SetMaxIdleConns(0.1 * 80), SetConnMaxLifetime(30s),
      SetConnMaxIdleTime(15s), SetMaxOpenConns(70)).
   3. QueryConcurrency: one goroutine per entry issuing the statement
      through the pool, a mutex-protected success counter, and a buffered
      error channel of capacity len(logs); after the wait-group barrier it
      returns (0, first queued error) when the channel is non-empty and
      (numberSuccess, nil) otherwise.

   The file system, JSON documents and the database are modelled
   explicitly; goroutine interleaving is modelled by the order in which
   the units complete (a permutation of the unit indices): the mutex makes
   the counter equal to the number of successful units in every
   interleaving, and the buffered channel holds the errors of the failing
   units in completion order. -/

namespace SqlExtraction

/-- JSON documents, as decoded by encoding/json: null, booleans, numbers,
strings, arrays, and objects (ordered key/value lists, since the decoder
processes keys in source order). -/
inductive Json where
  | null
  | bool (b : Bool)
  | num (q : ℚ)
  | str (s : String)
  | arr (elems : List Json)
  | obj (fields : List (String × Json))

/-- The nested anonymous struct of src/main.go line 40: JsonPayload with
its Message string field. -/
structure JsonPayload where
  message : String
  deriving DecidableEq

/-- LogEntry of src/main.go line 39. -/
structure LogEntry where
  jsonPayload : JsonPayload
  deriving DecidableEq

/-- Go encoding/json field-name matching: a key matches a struct field
when it equals the field tag up to case folding (modelled for ASCII). -/
def foldEq (a b : String) : Bool := a.data.map Char.toLower == b.data.map Char.toLower

/-- Decoding a JSON value into a Go string field: a JSON string
overwrites the field, null leaves it unchanged, any other value leaves it
unchanged and records an unmarshal type error. -/
def decodeMessageInto (j : Json) (cur : String) : String × Bool :=
  match j with
  | Json.str s => (s, false)
  | Json.null => (cur, false)
  | _ => (cur, true)

/-- Decoding the keys of a JSON object into the JsonPayload struct, in
source order, carrying the accumulated error flag: keys matching the
Message field are decoded into it, other keys are ignored. -/
def decodePayloadFields : List (String × Json) → JsonPayload → Bool → JsonPayload × Bool
  | [], cur, b => (cur, b)
  | kv :: rest, cur, b =>
    if foldEq kv.1 "message" then
      decodePayloadFields rest ⟨(decodeMessageInto kv.2 cur.message).1⟩
        (b || (decodeMessageInto kv.2 cur.message).2)
    else
      decodePayloadFields rest cur b

/-- Decoding a JSON value into the JsonPayload struct field: an object is
merged into the current value, null is a no-op, any other value records a
type error. -/
def decodePayloadInto (j : Json) (cur : JsonPayload) : JsonPayload × Bool :=
  match j with
  | Json.obj fields => decodePayloadFields fields cur false
  | Json.null => (cur, false)
  | _ => (cur, true)

/-- Decoding the keys of a JSON object into the LogEntry struct, in
source order. -/
def decodeEntryFields : List (String × Json) → LogEntry → Bool → LogEntry × Bool
  | [], cur, b => (cur, b)
  | kv :: rest, cur, b =>
    if foldEq kv.1 "jsonPayload" then
      decodeEntryFields rest ⟨(decodePayloadInto kv.2 cur.jsonPayload).1⟩
        (b || (decodePayloadInto kv.2 cur.jsonPayload).2)
    else
      decodeEntryFields rest cur b

/-- Decoding one array element into a *LogEntry: JSON null yields a nil
pointer (modelled as none) with no error; an object allocates an entry
and decodes into it; any other value allocates a zero entry and records a
type error. -/
def unmarshalElem (j : Json) : Option LogEntry × Bool :=
  match j with
  | Json.null => (none, false)
  | Json.obj fields =>
      (some (decodeEntryFields fields ⟨⟨""⟩⟩ false).1,
       (decodeEntryFields fields ⟨⟨""⟩⟩ false).2)
  | _ => (some ⟨⟨""⟩⟩, true)

/-- json.Unmarshal of the whole document into a []*LogEntry slice: an
array decodes element-wise (the error flag is set when any element
errs, and the decoder still produces the slice); a top-level null sets
the slice to nil with no error; any other top-level value is a type
error leaving the slice nil. -/
def unmarshalLogs (j : Json) : List (Option LogEntry) × Bool :=
  match j with
  | Json.arr elems =>
      (elems.map (fun x => (unmarshalElem x).1),
       elems.any (fun x => (unmarshalElem x).2))
  | Json.null => ([], false)
  | _ => ([], true)

/-- RE2 word characters, the class used by the \b assertion:
[0-9A-Za-z_]. -/
def isWordChar (c : Char) : Bool :=
  (('a' ≤ c) && (c ≤ 'z')) || (('A' ≤ c) && (c ≤ 'Z')) ||
    (('0' ≤ c) && (c ≤ '9')) || (c == '_')

/-- The alternation of src/main.go line 55. -/
def keywords : List String := ["SELECT", "INSERT", "UPDATE", "DELETE", "WITH RECURSIVE"]

/-- Case-insensitive prefix test (the (?i) flag, modelled for the ASCII
keywords of the pattern): does the second list start with the first,
comparing characters case-insensitively? -/
def prefixCI : List Char → List Char → Bool
  | [], _ => true
  | _ :: _, [] => false
  | k :: ks, c :: cs => (c.toLower == k.toLower) && prefixCI ks cs

/-- The \b assertion before position i: true at the start of the text or
after a non-word character (all keywords begin with a word character). -/
def boundaryBefore (s : List Char) (i : Nat) : Bool :=
  match i with
  | 0 => true
  | j + 1 =>
    match s[j]? with
    | some c => !isWordChar c
    | none => true

/-- The \b assertion at position j after a keyword: true at the end of
the text or before a non-word character (all keywords end with a word
character). -/
def boundaryAfter (s : List Char) (j : Nat) : Bool :=
  match s[j]? with
  | some c => !isWordChar c
  | none => true

/-- Does the pattern \b(SELECT|INSERT|UPDATE|DELETE|WITH RECURSIVE)\b
match at position i of s (case-insensitively)? -/
def keywordAt (s : List Char) (i : Nat) : Bool :=
  boundaryBefore s i &&
    keywords.any (fun kw => prefixCI kw.data (s.drop i) && boundaryAfter s (i + kw.length))

/-- Leftmost-match search of Go regexp: the first position at or after i
where the keyword pattern matches. -/
def findMatchFrom (s : List Char) (i : Nat) : Option Nat :=
  if h : s.length ≤ i then none
  else if keywordAt s i then some i else findMatchFrom s (i + 1)
termination_by s.length - i
decreasing_by simp_wf; omega

/-- re.FindString for the pattern of src/main.go line 55: because the
pattern ends in the greedy [\s\S]*, the leftmost match extends to the end
of the text, so the result is the suffix of s starting at the first
matching position, and the empty string when there is no match. -/
def reFindString (s : String) : String :=
  match findMatchFrom s.data 0 with
  | some i => String.mk (s.data.drop i)
  | none => ""

/-- The per-entry rewrite of the extraction loop (src/main.go lines
56-59): the message is replaced by the regexp match. -/
def extractLogEntry (e : LogEntry) : LogEntry := ⟨⟨reFindString e.jsonPayload.message⟩⟩

/-- Reading every entry pointer of the decoded slice in order: the Go
loop dereferences each pointer, so a nil pointer makes the whole loop
panic (modelled as none). -/
def derefAll : List (Option LogEntry) → Option (List LogEntry)
  | [] => some []
  | none :: _ => none
  | some e :: rest => (derefAll rest).map (fun l => e :: l)

/-- Contents of a capture file: either bytes that fail to parse as JSON,
or a JSON document. -/
inductive FileContent where
  | malformed
  | json (j : Json)

/-- The two error sources of ExtractQuery: os.ReadFile failure and
json.Unmarshal failure. -/
inductive ExtractError where
  | ioError
  | decodeError
  deriving DecidableEq

/-- Observable outcome of ExtractQuery: a normal return with entries, an
error return, or a runtime panic (nil pointer dereference). -/
inductive ExtractResult where
  | ok (entries : List LogEntry)
  | error (e : ExtractError)
  | panic
  deriving DecidableEq

/-- ExtractQuery of src/main.go lines 45-61, over an explicit file
system (a map from paths to file contents; none is a missing or
unreadable file). -/
def ExtractQuery (fs : String → Option FileContent) (filePath : String) : ExtractResult :=
  match fs filePath with
  | none => ExtractResult.error ExtractError.ioError
  | some FileContent.malformed => ExtractResult.error ExtractError.decodeError
  | some (FileContent.json j) =>
    if (unmarshalLogs j).2 then ExtractResult.error ExtractError.decodeError
    else
      match derefAll (unmarshalLogs j).1 with
      | none => ExtractResult.panic
      | some entries => ExtractResult.ok (entries.map extractLogEntry)

/-- The Go constant expression 0.1 * 80 of src/main.go line 68, in exact
constant arithmetic (untyped Go constants are exact rationals). -/
def maxIdleConnsExpr : ℚ := 0.1 * 80

/-- The four pool parameters set by Connection. -/
structure PoolConfig where
  maxIdleConns : ℤ
  connMaxLifetimeSeconds : ℤ
  connMaxIdleTimeSeconds : ℤ
  maxOpenConns : ℤ
  deriving DecidableEq

/-- The parameters applied in src/main.go lines 68-71. -/
def poolConfig : PoolConfig :=
  { maxIdleConns := maxIdleConnsExpr.num
  , connMaxLifetimeSeconds := 30
  , connMaxIdleTimeSeconds := 15
  , maxOpenConns := 70 }

/-- Connection of src/main.go lines 63-73: sql.Open either fails (the
openResult models the error of the environment) or yields the pooled
handle carrying the fixed pool parameters. -/
def Connection (openResult : Option String) : Except String PoolConfig :=
  match openResult with
  | some e => Except.error e
  | none => Except.ok poolConfig

/-- Environment model for one run: whether opening the pooled connection
fails, and the outcome of conn.Query for each unit index (none is
success, some e is the error text). Outcomes are per unit, not per
statement text, because the database answer may differ between units. -/
structure DBModel where
  connectError : Option String
  queryResult : Nat → Option String

/-- Observable outcome of QueryConcurrency: the returned pair, plus the
ghost trace of the statements passed to conn.Query (empty when the run
aborts before the fan-out loop). -/
structure RunOutcome where
  successCount : Nat
  runError : Option String
  issued : List String
  deriving DecidableEq

/-- QueryConcurrency of src/main.go lines 75-113, for a given completion
order of the units. The mutex-protected counter equals the number of
successful units in every interleaving; the buffered error channel holds
the errors of the failing units in completion order, so after close the
first received error is the head of that list; the code returns (0,
first error) when the channel is non-empty and (numberSuccess, nil)
otherwise. -/
def QueryConcurrency (db : DBModel) (logs : List LogEntry) (order : List Nat) : RunOutcome :=
  match Connection db.connectError with
  | Except.error e => ⟨0, some e, []⟩
  | Except.ok _ =>
    match order.filterMap db.queryResult with
    | e :: _ => ⟨0, some e, logs.map (fun l => l.jsonPayload.message)⟩
    | [] => ⟨(order.filter (fun i => (db.queryResult i).isNone)).length, none,
             logs.map (fun l => l.jsonPayload.message)⟩

/-- The capacity of the error channel created in src/main.go line 85:
make(chan error, len(logs)). -/
def errChanCapacity (logs : List LogEntry) : Nat := logs.length

/-- Restriction of a decoded message-field value per the stated capture
schema: a string (null is also harmless to the decoder). -/
def goodMessageVal : Json → Bool
  | Json.str _ => true
  | Json.null => true
  | _ => false

/-- Does the object hold a message key with a string value? -/
def hasMessageStr : Json → Bool
  | Json.obj fields =>
      fields.any (fun kv => foldEq kv.1 "message" &&
        (match kv.2 with | Json.str _ => true | _ => false))
  | _ => false

/-- A JSON value acceptable as the jsonPayload field: an object whose
message-matching keys all carry string (or null) values, or null. -/
def goodPayloadVal : Json → Bool
  | Json.obj fields => fields.all (fun kv => !(foldEq kv.1 "message") || goodMessageVal kv.2)
  | Json.null => true
  | _ => false

/-- A well-formed envelope element per the spec: an object with a
jsonPayload.message string, all jsonPayload-matching keys carrying
acceptable values. -/
def isEnvelope : Json → Bool
  | Json.obj fields =>
      fields.all (fun kv => !(foldEq kv.1 "jsonPayload") || goodPayloadVal kv.2) &&
        fields.any (fun kv => foldEq kv.1 "jsonPayload" && hasMessageStr kv.2)
  | _ => false

/-- The entry decoded from one array element (zero entry for the
unreachable nil case). -/
def rawEntryOf (j : Json) : LogEntry :=
  match (unmarshalElem j).1 with
  | some e => e
  | none => ⟨⟨""⟩⟩

/-- The final entry produced for one array element: decode, then extract
the statement. -/
def entryOfElement (j : Json) : LogEntry := extractLogEntry (rawEntryOf j)

theorem prefixCI_ne_nil {ks l : List Char} (hks : ks ≠ []) (h : prefixCI ks l = true) : l ≠ [] := by
  cases ks with
  | nil => exact absurd rfl hks
  | cons k ks =>
    cases l with
    | nil => simp [prefixCI] at h
    | cons c cs => simp

theorem keywordAt_lt_length {s : List Char} {i : Nat} (h : keywordAt s i = true) :
    i < s.length := by
  unfold keywordAt at h
  rw [Bool.and_eq_true] at h
  obtain ⟨-, hany⟩ := h
  rw [List.any_eq_true] at hany
  obtain ⟨kw, hkw, hm⟩ := hany
  rw [Bool.and_eq_true] at hm
  obtain ⟨hpre, -⟩ := hm
  have hne : kw.data ≠ [] := by
    have hall : ∀ kw ∈ keywords, kw.data ≠ [] := by decide
    exact hall kw hkw
  have hdrop : s.drop i ≠ [] := prefixCI_ne_nil hne hpre
  by_contra hlen
  push_neg at hlen
  exact hdrop (List.drop_eq_nil_of_le hlen)

theorem keywordAt_false_of_le {s : List Char} {i : Nat} (h : s.length ≤ i) :
    keywordAt s i = false := by
  cases hk : keywordAt s i with
  | false => rfl
  | true => exact absurd (keywordAt_lt_length hk) (by omega)

theorem findMatchFrom_eq_some {s : List Char} {i : Nat} (hi : keywordAt s i = true)
    (d : Nat) : ∀ k, i - k = d → k ≤ i → (∀ j, k ≤ j → j < i → keywordAt s j = false) →
    findMatchFrom s k = some i := by
  induction d with
  | zero =>
    intro k hd hk _
    have hki : k = i := by omega
    subst hki
    unfold findMatchFrom
    rw [dif_neg (Nat.not_le_of_lt (keywordAt_lt_length hi))]
    rw [if_pos hi]
  | succ d ih =>
    intro k hd hk hmin
    have hklt : k < i := by omega
    have hkF : keywordAt s k = false := hmin k (Nat.le_refl k) hklt
    have hil : i < s.length := keywordAt_lt_length hi
    unfold findMatchFrom
    rw [dif_neg (by omega)]
    rw [if_neg (by simp [hkF])]
    exact ih (k + 1) (by omega) (by omega) (fun j h1 h2 => hmin j (by omega) h2)

theorem findMatchFrom_eq_none {s : List Char} (h : ∀ j, keywordAt s j = false)
    (d : Nat) : ∀ k, s.length - k = d → findMatchFrom s k = none := by
  induction d with
  | zero =>
    intro k hd
    unfold findMatchFrom
    rw [dif_pos (by omega)]
  | succ d ih =>
    intro k hd
    unfold findMatchFrom
    rw [dif_neg (by omega)]
    rw [if_neg (by simp [h k])]
    exact ih (k + 1) (by omega)

/-- Claim C3: for every log message in which the keyword pattern matches
as a whole word at position i (case-insensitively) and at no earlier
position, the extracted statement is exactly the suffix of the message
starting at i — from the first keyword occurrence to the end of the
message, with the original character case preserved (a suffix of the
original is returned verbatim). -/
theorem extract_takes_suffix_at_first_keyword (s : String) (i : Nat)
    (hi : keywordAt s.data i = true)
    (hmin : ∀ j, j < i → keywordAt s.data j = false) :
    reFindString s = String.mk (s.data.drop i) := by
  unfold reFindString
  rw [findMatchFrom_eq_some hi i 0 (by omega) (by omega) (fun j h1 h2 => hmin j h2)]

/-- Witness for C3: in the message x SELECT 1 the first whole-word
keyword occurrence is SELECT at index 2, and the extracted statement is
the suffix from there. -/
theorem extract_takes_suffix_witness :
    reFindString "x SELECT 1" = String.mk (("x SELECT 1" : String).data.drop 2) :=
  extract_takes_suffix_at_first_keyword "x SELECT 1" 2 (by decide) (by decide)

/-- Claim C5: for every log message in which the keyword pattern matches
as a whole word at no position, the extracted statement is the empty
string. -/
theorem extract_empty_without_keyword (s : String)
    (h : ∀ i, i < s.data.length → keywordAt s.data i = false) :
    reFindString s = "" := by
  have h' : ∀ i, keywordAt s.data i = false := by
    intro i
    by_cases hi : i < s.data.length
    · exact h i hi
    · exact keywordAt_false_of_le (by omega)
  unfold reFindString
  rw [findMatchFrom_eq_none h' s.data.length 0 (by omega)]

/-- Witness for C5: the message no sql here holds no keyword, and yields
the empty statement. -/
theorem extract_empty_witness : reFindString "no sql here" = "" :=
  extract_empty_without_keyword "no sql here" (by decide)

theorem decodeMessageInto_no_err {j : Json} (h : goodMessageVal j = true) (cur : String) :
    (decodeMessageInto j cur).2 = false := by
  cases j <;> simp_all [goodMessageVal, decodeMessageInto]

theorem decodePayloadFields_no_err (fields : List (String × Json)) :
    ∀ cur, (∀ kv ∈ fields, foldEq kv.1 "message" = true → goodMessageVal kv.2 = true) →
    (decodePayloadFields fields cur false).2 = false := by
  induction fields with
  | nil => intro cur _; rfl
  | cons kv rest ih =>
    intro cur hall
    have hrest : ∀ kv' ∈ rest, foldEq kv'.1 "message" = true → goodMessageVal kv'.2 = true :=
      fun kv' hkv' => hall kv' (List.mem_cons_of_mem kv hkv')
    by_cases hm : foldEq kv.1 "message" = true
    · have hg := hall kv (List.mem_cons_self kv rest) hm
      have he := decodeMessageInto_no_err hg cur.message
      simp only [decodePayloadFields, hm, if_true, he, Bool.or_false]
      exact ih _ hrest
    · simp only [decodePayloadFields, hm, if_false, Bool.false_eq_true]
      exact ih cur hrest

theorem decodePayloadInto_no_err {j : Json} (h : goodPayloadVal j = true) (cur : JsonPayload) :
    (decodePayloadInto j cur).2 = false := by
  cases j with
  | obj fields =>
    have hall : ∀ kv ∈ fields, foldEq kv.1 "message" = true → goodMessageVal kv.2 = true := by
      rw [show goodPayloadVal (Json.obj fields)
            = fields.all (fun kv => !(foldEq kv.1 "message") || goodMessageVal kv.2) from rfl,
          List.all_eq_true] at h
      intro kv hkv hm
      have hp := h kv hkv
      simpa [hm] using hp
    exact decodePayloadFields_no_err fields cur hall
  | null => rfl
  | bool b => simp [goodPayloadVal] at h
  | num q => simp [goodPayloadVal] at h
  | str s => simp [goodPayloadVal] at h
  | arr elems => simp [goodPayloadVal] at h

theorem decodeEntryFields_no_err (fields : List (String × Json)) :
    ∀ cur, (∀ kv ∈ fields, foldEq kv.1 "jsonPayload" = true → goodPayloadVal kv.2 = true) →
    (decodeEntryFields fields cur false).2 = false := by
  induction fields with
  | nil => intro cur _; rfl
  | cons kv rest ih =>
    intro cur hall
    have hrest : ∀ kv' ∈ rest, foldEq kv'.1 "jsonPayload" = true → goodPayloadVal kv'.2 = true :=
      fun kv' hkv' => hall kv' (List.mem_cons_of_mem kv hkv')
    by_cases hm : foldEq kv.1 "jsonPayload" = true
    · have hg := hall kv (List.mem_cons_self kv rest) hm
      have he := decodePayloadInto_no_err hg cur.jsonPayload
      simp only [decodeEntryFields, hm, if_true, he, Bool.or_false]
      exact ih _ hrest
    · simp only [decodeEntryFields, hm, if_false, Bool.false_eq_true]
      exact ih cur hrest

theorem unmarshalElem_of_envelope {j : Json} (h : isEnvelope j = true) :
    (unmarshalElem j).2 = false ∧ (unmarshalElem j).1 ≠ none := by
  cases j with
  | obj fields =>
    have hall : ∀ kv ∈ fields, foldEq kv.1 "jsonPayload" = true → goodPayloadVal kv.2 = true := by
      rw [show isEnvelope (Json.obj fields)
            = (fields.all (fun kv => !(foldEq kv.1 "jsonPayload") || goodPayloadVal kv.2) &&
               fields.any (fun kv => foldEq kv.1 "jsonPayload" && hasMessageStr kv.2)) from rfl,
          Bool.and_eq_true, List.all_eq_true] at h
      intro kv hkv hm
      have hp := h.1 kv hkv
      simpa [hm] using hp
    refine ⟨?_, by simp [unmarshalElem]⟩
    show (decodeEntryFields fields ⟨⟨""⟩⟩ false).2 = false
    exact decodeEntryFields_no_err fields ⟨⟨""⟩⟩ hall
  | null => simp [isEnvelope] at h
  | bool b => simp [isEnvelope] at h
  | num q => simp [isEnvelope] at h
  | str s => simp [isEnvelope] at h
  | arr elems => simp [isEnvelope] at h

theorem derefAll_map_unmarshal (xs : List Json) (h : ∀ x ∈ xs, (unmarshalElem x).1 ≠ none) :
    derefAll (xs.map (fun x => (unmarshalElem x).1)) = some (xs.map rawEntryOf) := by
  induction xs with
  | nil => rfl
  | cons x rest ih =>
    have hx := h x (List.mem_cons_self x rest)
    have hr := ih (fun y hy => h y (List.mem_cons_of_mem x hy))
    cases hex : (unmarshalElem x).1 with
    | none => exact absurd hex hx
    | some e =>
      simp [derefAll, hex, hr, rawEntryOf]

/-- Claim C4: for every well-formed capture file — a JSON array whose
elements are envelope objects with a jsonPayload.message string —
ExtractQuery returns exactly one entry per array element, in the order
of the input array: the result is the element-wise image of the input
array under decode-then-extract. -/
theorem extract_one_entry_per_element (fs : String → Option FileContent) (path : String)
    (xs : List Json) (hfs : fs path = some (FileContent.json (Json.arr xs)))
    (henv : ∀ x ∈ xs, isEnvelope x = true) :
    ExtractQuery fs path = ExtractResult.ok (xs.map entryOfElement) := by
  have hflags : ∀ x ∈ xs, (unmarshalElem x).2 = false :=
    fun x hx => (unmarshalElem_of_envelope (henv x hx)).1
  have hsome : ∀ x ∈ xs, (unmarshalElem x).1 ≠ none :=
    fun x hx => (unmarshalElem_of_envelope (henv x hx)).2
  have hany : (xs.any (fun x => (unmarshalElem x).2)) = false := by
    rw [List.any_eq_false]
    intro x hx
    simp [hflags x hx]
  simp only [ExtractQuery, hfs, unmarshalLogs]
  rw [if_neg (by simp [hany])]
  rw [derefAll_map_unmarshal xs hsome]
  simp [entryOfElement, List.map_map, Function.comp]

/-- Witness for C4: a one-element capture file yields exactly the
one-element entry list. -/
theorem extract_one_entry_witness :
    ExtractQuery
      (fun _ => some (FileContent.json (Json.arr
        [Json.obj [("jsonPayload", Json.obj [("message", Json.str "a SELECT 1")])]])))
      "capture.json"
      = ExtractResult.ok
          ([Json.obj [("jsonPayload", Json.obj [("message", Json.str "a SELECT 1")])]].map
            entryOfElement) :=
  extract_one_entry_per_element _ _ _ rfl (by decide)

/-- Claim C6 is corrected by this counterexample: a capture file whose
contents are the JSON document null — valid JSON but not a JSON array of
the expected shape — does not produce a decode error: json.Unmarshal
sets the slice to nil without error and ExtractQuery returns a normal
empty result. -/
theorem decode_error_counterexample :
    ExtractQuery (fun _ => some (FileContent.json Json.null)) "capture.json"
        = ExtractResult.ok [] ∧
      ExtractQuery (fun _ => some (FileContent.json Json.null)) "capture.json"
        ≠ ExtractResult.error ExtractError.decodeError := by
  refine ⟨rfl, ?_⟩
  decide

/-- Claim C6 as amended: a capture file whose contents are valid JSON
with a top-level value that is neither an array nor null fails with a
decode error and no entries; a file that is not valid JSON fails with a
decode error and no entries; a missing or unreadable file fails with an
I/O error and no entries. (A top-level null, and an array whose objects
merely lack the expected fields, decode without error.) -/
theorem decode_and_io_errors (fs : String → Option FileContent) (path : String) :
    (∀ j, fs path = some (FileContent.json j) → (∀ xs, j ≠ Json.arr xs) → j ≠ Json.null →
      ExtractQuery fs path = ExtractResult.error ExtractError.decodeError) ∧
    (fs path = some FileContent.malformed →
      ExtractQuery fs path = ExtractResult.error ExtractError.decodeError) ∧
    (fs path = none → ExtractQuery fs path = ExtractResult.error ExtractError.ioError) := by
  refine ⟨?_, ?_, ?_⟩
  · intro j h1 h2 h3
    cases j with
    | null => exact absurd rfl h3
    | arr xs => exact absurd rfl (h2 xs)
    | bool b => simp [ExtractQuery, h1, unmarshalLogs]
    | num q => simp [ExtractQuery, h1, unmarshalLogs]
    | str s => simp [ExtractQuery, h1, unmarshalLogs]
    | obj fields => simp [ExtractQuery, h1, unmarshalLogs]
  · intro h1
    simp [ExtractQuery, h1]
  · intro h1
    simp [ExtractQuery, h1]

/-- Witness for the amended C6: a top-level JSON true yields a decode
error and a missing file yields an I/O error. -/
theorem decode_and_io_errors_witness :
    ExtractQuery (fun _ => some (FileContent.json (Json.bool true))) "capture.json"
        = ExtractResult.error ExtractError.decodeError ∧
      ExtractQuery (fun _ => none) "capture.json"
        = ExtractResult.error ExtractError.ioError :=
  ⟨(decode_and_io_errors (fun _ => some (FileContent.json (Json.bool true))) "capture.json").1
      (Json.bool true) rfl (fun _ h => Json.noConfusion h) (fun h => Json.noConfusion h),
   (decode_and_io_errors (fun _ => none) "capture.json").2.2 rfl⟩

/-- Claim C10: there is a capture file that is valid JSON of otherwise
acceptable shape — an array holding a well-formed envelope and a null
element — on which ExtractQuery neither returns a decode error nor an
entry list: the null element unmarshals to a nil entry pointer, the
extraction loop dereferences it, and the function panics. -/
theorem null_element_panics :
    ExtractQuery
      (fun _ => some (FileContent.json (Json.arr
        [Json.obj [("jsonPayload", Json.obj [("message", Json.str "SELECT 1")])],
         Json.null])))
      "capture.json" = ExtractResult.panic := by
  decide

/-- Claim C1: whenever the pooled connection opens and at least one unit
fails, the run returns success count 0 together with the first error
recorded in the error channel (the head of the channel contents, which
are the failing units in completion order), and that error is non-nil —
even if some units succeeded. The exactly-one-failure case of the claim
is the instance of this statement with one failing index. -/
theorem run_reports_zero_and_first_error (db : DBModel) (logs : List LogEntry)
    (order : List Nat)
    (hconn : db.connectError = none)
    (hperm : order.Perm (List.range logs.length))
    (hfail : ∃ i, i < logs.length ∧ db.queryResult i ≠ none) :
    (QueryConcurrency db logs order).successCount = 0 ∧
    (QueryConcurrency db logs order).runError = (order.filterMap db.queryResult).head? ∧
    (order.filterMap db.queryResult).head? ≠ none := by
  obtain ⟨i, hi, hne⟩ := hfail
  obtain ⟨e, he⟩ := Option.ne_none_iff_exists'.mp hne
  have hmem : i ∈ order := hperm.mem_iff.mpr (List.mem_range.mpr hi)
  have hememb : e ∈ order.filterMap db.queryResult := List.mem_filterMap.mpr ⟨i, hmem, he⟩
  cases herr : order.filterMap db.queryResult with
  | nil => rw [herr] at hememb; cases hememb
  | cons e0 rest =>
    simp [QueryConcurrency, Connection, hconn, herr]

/-- Witness for C1: one entry, its unit fails, connection opens; the run
reports 0 successes and the enqueued error. -/
theorem run_reports_zero_witness :
    (QueryConcurrency ⟨none, fun _ => some "syntax error"⟩ [⟨⟨""⟩⟩] [0]).successCount = 0 ∧
    (QueryConcurrency ⟨none, fun _ => some "syntax error"⟩ [⟨⟨""⟩⟩] [0]).runError
      = (([0] : List Nat).filterMap
          (DBModel.queryResult ⟨none, fun _ => some "syntax error"⟩)).head? ∧
    (([0] : List Nat).filterMap
        (DBModel.queryResult ⟨none, fun _ => some "syntax error"⟩)).head? ≠ none :=
  run_reports_zero_and_first_error ⟨none, fun _ => some "syntax error"⟩ [⟨⟨""⟩⟩] [0]
    rfl (by decide) ⟨0, by decide, by decide⟩

/-- Claim C2: whenever the pooled connection opens and every unit of the
N entries succeeds, the run returns success count N and a nil error (and
every statement was issued). -/
theorem run_all_success (db : DBModel) (logs : List LogEntry) (order : List Nat)
    (hconn : db.connectError = none)
    (hperm : order.Perm (List.range logs.length))
    (hok : ∀ i, i < logs.length → db.queryResult i = none) :
    QueryConcurrency db logs order =
      ⟨logs.length, none, logs.map (fun l => l.jsonPayload.message)⟩ := by
  have hmemlt : ∀ i ∈ order, i < logs.length :=
    fun i hi => List.mem_range.mp (hperm.mem_iff.mp hi)
  have herr : order.filterMap db.queryResult = [] := by
    rw [List.filterMap_eq_nil_iff]
    intro i hi
    exact hok i (hmemlt i hi)
  have hfilt : order.filter (fun i => (db.queryResult i).isNone) = order := by
    rw [List.filter_eq_self]
    intro i hi
    simp [hok i (hmemlt i hi)]
  have hlen : order.length = logs.length := by
    rw [hperm.length_eq, List.length_range]
  simp [QueryConcurrency, Connection, hconn, herr, hfilt, hlen]

/-- Witness for C2: one entry, its unit succeeds; the run reports 1
success and no error. -/
theorem run_all_success_witness :
    QueryConcurrency ⟨none, fun _ => none⟩ [⟨⟨"SELECT 1"⟩⟩] [0] =
      ⟨([(⟨⟨"SELECT 1"⟩⟩ : LogEntry)] : List LogEntry).length, none,
       ([(⟨⟨"SELECT 1"⟩⟩ : LogEntry)] : List LogEntry).map (fun l => l.jsonPayload.message)⟩ :=
  run_all_success ⟨none, fun _ => none⟩ [⟨⟨"SELECT 1"⟩⟩] [0] rfl (by decide)
    (fun _ _ => rfl)

/-- Claim C7: if opening the pooled connection fails, QueryConcurrency
returns success count 0 and the connect error, and no statement is
issued to the database (the run aborts before the fan-out loop). -/
theorem connect_failure_aborts (db : DBModel) (logs : List LogEntry) (order : List Nat)
    (e : String) (hconn : db.connectError = some e) :
    QueryConcurrency db logs order = ⟨0, some e, []⟩ := by
  simp [QueryConcurrency, Connection, hconn]

/-- Witness for C7: a refused connection aborts a one-entry run with no
issued statement. -/
theorem connect_failure_witness :
    QueryConcurrency ⟨some "connection refused", fun _ => none⟩ [⟨⟨"SELECT 1"⟩⟩] [0] =
      ⟨0, some "connection refused", []⟩ :=
  connect_failure_aborts ⟨some "connection refused", fun _ => none⟩ [⟨⟨"SELECT 1"⟩⟩] [0]
    "connection refused" rfl

/-- Claim C8: the fixed pool parameters satisfy maxIdleConnections ≤
maxOpenConnections, with maxOpenConnections = 70 and maxIdleConnections
= 8, the latter computed as the exact Go constant expression 0.1 * 80. -/
theorem pool_parameters_invariant :
    maxIdleConnsExpr = 8 ∧ poolConfig.maxIdleConns = 8 ∧ poolConfig.maxOpenConns = 70 ∧
      poolConfig.maxIdleConns ≤ poolConfig.maxOpenConns := by
  have h8 : maxIdleConnsExpr = 8 := by norm_num [maxIdleConnsExpr]
  have hnum : poolConfig.maxIdleConns = 8 := by
    rw [show poolConfig.maxIdleConns = maxIdleConnsExpr.num from rfl, h8]
    simp
  refine ⟨h8, hnum, rfl, ?_⟩
  rw [hnum]
  decide

/-- Claim C9: the error channel is created with capacity equal to the
number of input entries; each unit enqueues at most one error (a unit
index occurs once in the completion order), so the number of recorded
errors never exceeds the capacity and no producer blocks on a full
channel. -/
theorem err_channel_never_overflows (db : DBModel) (logs : List LogEntry)
    (order : List Nat)
    (hperm : order.Perm (List.range logs.length)) :
    errChanCapacity logs = logs.length ∧ order.Nodup ∧
    (order.filterMap db.queryResult).length ≤ errChanCapacity logs := by
  refine ⟨rfl, hperm.nodup_iff.mpr (List.nodup_range _), ?_⟩
  calc (order.filterMap db.queryResult).length
      ≤ order.length := List.length_filterMap_le _ _
    _ = logs.length := by rw [hperm.length_eq, List.length_range]

/-- Witness for C9: a one-entry run with a failing unit records one
error, within the capacity of one. -/
theorem err_channel_witness :
    errChanCapacity [(⟨⟨""⟩⟩ : LogEntry)] = ([(⟨⟨""⟩⟩ : LogEntry)] : List LogEntry).length ∧
    ([0] : List Nat).Nodup ∧
    (([0] : List Nat).filterMap
        (DBModel.queryResult ⟨none, fun _ => some "boom"⟩)).length
      ≤ errChanCapacity [(⟨⟨""⟩⟩ : LogEntry)] :=
  err_channel_never_overflows ⟨none, fun _ => some "boom"⟩ [⟨⟨""⟩⟩] [0] (by decide)

end SqlExtraction
